import Mathlib

/-!
Verification development for the CasperLabs execution-engine excerpt.

Shallow embedding of:
* the binary codec (bytesrepr) used by the value types,
* the AccessRights capability bitset (types/src/access_rights.rs),
* the Key discriminated union referenced by contracts,
* the Contract stored value (contract-ffi/src/value/contract.rs),
* the gRPC boundary handlers (engine-grpc-server/src/engine_server/mod.rs).

Machine integers are modelled as Nat with explicit reductions modulo 2 ^ w
where the code performs a narrowing cast; byte sequences are lists of Nat
holding byte values; strings are their UTF-8 byte sequences; fallible Rust
functions returning Result are modelled with Except.
-/

/-- Errors of the binary codec. Modelled from the spec: the bytesrepr error
taxonomy is FormattingError, EarlyEndOfStream, and OutOfMemoryError (the
size-bound violation); the codec implementation itself is not part of the
excerpt, only its callers are. -/
inductive BytesError
  | FormattingError
  | EarlyEndOfStream
  | OutOfMemoryError
deriving DecidableEq, Repr

/-- Size in bytes of a serialized u32 length field. -/
def U32_SIZE : Nat := 4

/-- Size in bytes of a serialized u64. -/
def U64_SIZE : Nat := 8

/-- The value of u32::max_value(). -/
def U32_MAX : Nat := 4294967295

/-- Little-endian byte emission: k bytes of n, low byte first; bits of n above
8 * k are discarded, which embeds the narrowing cast of a length to u32. -/
def toLE : Nat → Nat → List Nat
  | 0, _ => []
  | k + 1, n => n % 256 :: toLE k (n / 256)

/-- Little-endian recomposition of a byte list into a Nat. -/
def fromLE : List Nat → Nat
  | [] => 0
  | b :: bs => b + 256 * fromLE bs

/-- Reads exactly n bytes from the stream, or fails with EarlyEndOfStream.
Modelled from the spec: decoding must reject any input shorter than a
required field. -/
def readN : Nat → List Nat → Except BytesError (List Nat × List Nat)
  | 0, bs => .ok ([], bs)
  | _ + 1, [] => .error .EarlyEndOfStream
  | n + 1, b :: bs =>
    match readN n bs with
    | .error e => .error e
    | .ok (xs, r) => .ok (b :: xs, r)

/-- Modelled from the spec: u8 encodes as itself, one byte. -/
def u8ToBytes (n : Nat) : Except BytesError (List Nat) := .ok [n % 256]

/-- Modelled from the spec: u8 decoding takes the first byte of the stream. -/
def u8FromBytes : List Nat → Except BytesError (Nat × List Nat)
  | [] => .error .EarlyEndOfStream
  | b :: r => .ok (b, r)

/-- Modelled from the spec: u32 encodes as 4 little-endian bytes. -/
def u32ToBytes (n : Nat) : Except BytesError (List Nat) := .ok (toLE 4 n)

/-- Modelled from the spec: u32 decoding reads 4 little-endian bytes. -/
def u32FromBytes (bs : List Nat) : Except BytesError (Nat × List Nat) :=
  match readN 4 bs with
  | .error e => .error e
  | .ok (xs, r) => .ok (fromLE xs, r)

/-- Modelled from the spec: u64 encodes as 8 little-endian bytes. -/
def u64ToBytes (n : Nat) : Except BytesError (List Nat) := .ok (toLE 8 n)

/-- Modelled from the spec: u64 decoding reads 8 little-endian bytes. -/
def u64FromBytes (bs : List Nat) : Except BytesError (Nat × List Nat) :=
  match readN 8 bs with
  | .error e => .error e
  | .ok (xs, r) => .ok (fromLE xs, r)

/-- Modelled from the spec: a byte sequence encodes as a 4-byte element count
followed by the bytes; encoding fails with an out-of-memory condition when the
length could not be represented faithfully in the u32 count (u32::MAX minus
the count field itself as safety margin), rather than wrapping the count. -/
def vecU8ToBytes (v : List Nat) : Except BytesError (List Nat) :=
  if U32_MAX - U32_SIZE ≤ v.length then .error .OutOfMemoryError
  else .ok (toLE 4 v.length ++ v)

/-- Modelled from the spec: byte-sequence decoding reads the 4-byte count and
then exactly that many bytes. -/
def vecU8FromBytes (bs : List Nat) : Except BytesError (List Nat × List Nat) :=
  match u32FromBytes bs with
  | .error e => .error e
  | .ok (n, r) =>
    match readN n r with
    | .error e => .error e
    | .ok (xs, r2) => .ok (xs, r2)

/-- Names (Rust String map keys) are modelled by their UTF-8 byte sequences;
the BTreeMap ordering on String is the lexicographic byte order. -/
abbrev Name : Type := List Nat

/-- Modelled from the spec: a string encodes like a scalar byte sequence. -/
def strToBytes (n : Name) : Except BytesError (List Nat) := vecU8ToBytes n

/-- Modelled from the spec: string decoding mirrors byte-sequence decoding. -/
def strFromBytes (bs : List Nat) : Except BytesError (Name × List Nat) :=
  vecU8FromBytes bs

/-- The AccessRights capability bitset of types/src/access_rights.rs: a u8
carrying flag bits READ = 0b001, WRITE = 0b010, ADD = 0b100. -/
structure AccessRights where
  bits : Nat
deriving DecidableEq, Repr

/-- Flag READ = 0b001. -/
def AccessRights.READ : AccessRights := ⟨1⟩

/-- Flag WRITE = 0b010. -/
def AccessRights.WRITE : AccessRights := ⟨2⟩

/-- Flag ADD = 0b100. -/
def AccessRights.ADD : AccessRights := ⟨4⟩

/-- Embeds AccessRights::is_readable: self & READ == READ. -/
def AccessRights.is_readable (r : AccessRights) : Bool :=
  r.bits &&& AccessRights.READ.bits == AccessRights.READ.bits

/-- Embeds AccessRights::is_writeable: self & WRITE == WRITE. -/
def AccessRights.is_writeable (r : AccessRights) : Bool :=
  r.bits &&& AccessRights.WRITE.bits == AccessRights.WRITE.bits

/-- Embeds AccessRights::is_addable: self & ADD == ADD. -/
def AccessRights.is_addable (r : AccessRights) : Bool :=
  r.bits &&& AccessRights.ADD.bits == AccessRights.ADD.bits

/-- Embeds bitflags from_bits: Some iff no bits outside READ | WRITE | ADD
are set, i.e. iff the byte is below 8. -/
def AccessRights.from_bits (b : Nat) : Option AccessRights :=
  if b < 8 then some ⟨b⟩ else none

/-- Embeds the impl ToBytes for AccessRights: self.bits.to_bytes(). -/
def accessRightsToBytes (r : AccessRights) : Except BytesError (List Nat) :=
  u8ToBytes r.bits

/-- Embeds the impl FromBytes for AccessRights: decode a u8, then from_bits;
a None from from_bits is a FormattingError. -/
def accessRightsFromBytes (bs : List Nat) :
    Except BytesError (AccessRights × List Nat) :=
  match u8FromBytes bs with
  | .error e => .error e
  | .ok (id, rem) =>
    match AccessRights.from_bits id with
    | some rights => .ok (rights, rem)
    | none => .error .FormattingError

/-- The Key discriminated union. Modelled from the spec: Account carries a
20-byte address, Hash a 32-byte address, URef a 32-byte address plus
AccessRights; key.rs itself is not part of the excerpt. -/
inductive Key
  | account (addr : List Nat)
  | hash (addr : List Nat)
  | uref (addr : List Nat) (rights : AccessRights)
deriving DecidableEq, Repr

/-- Modelled from the spec: UREF_SIZE is the serialized size of a URef key
(1 tag byte + 32 address bytes + 1 access-rights byte), the largest key
encoding, used by Contract::to_bytes as the per-entry size estimate. -/
def UREF_SIZE : Nat := 34

/-- Modelled from the spec: a Key encodes as a tag byte followed by the
fixed-width address, plus the access-rights byte for URef. -/
def keyToBytes : Key → List Nat
  | .account a => 0 :: a
  | .hash a => 1 :: a
  | .uref a r => 2 :: (a ++ [r.bits % 256])

/-- Modelled from the spec: Key decoding dispatches on the tag byte; a tag
outside the defined range is a FormattingError. -/
def keyFromBytes : List Nat → Except BytesError (Key × List Nat)
  | [] => .error .EarlyEndOfStream
  | t :: r =>
    if t = 0 then
      match readN 20 r with
      | .error e => .error e
      | .ok (a, r2) => .ok (.account a, r2)
    else if t = 1 then
      match readN 32 r with
      | .error e => .error e
      | .ok (a, r2) => .ok (.hash a, r2)
    else if t = 2 then
      match readN 32 r with
      | .error e => .error e
      | .ok (a, r2) =>
        match accessRightsFromBytes r2 with
        | .error e => .error e
        | .ok (rights, r3) => .ok (.uref a rights, r3)
    else .error .FormattingError

/-- Typing invariant of a Rust Key value: fixed address widths, and the
bitflags invariant that AccessRights bits stay inside the mask. -/
def Key.wf : Key → Bool
  | .account a => a.length == 20
  | .hash a => a.length == 32
  | .uref a r => a.length == 32 && r.bits < 8

/-- Serialized entries of a known_keys map: each entry is the name encoding
followed by the key encoding, in map (sorted) order. -/
def entriesToBytes : List (Name × Key) → Except BytesError (List Nat)
  | [] => .ok []
  | (n, k) :: rest =>
    match strToBytes n with
    | .error e => .error e
    | .ok nb =>
      match entriesToBytes rest with
      | .error e => .error e
      | .ok rb => .ok (nb ++ (keyToBytes k ++ rb))

/-- Modelled from the spec: a BTreeMap encodes as a 4-byte entry count
followed by the concatenated entry encodings in key order. -/
def knownKeysToBytes (m : List (Name × Key)) : Except BytesError (List Nat) :=
  match entriesToBytes m with
  | .error e => .error e
  | .ok eb => .ok (toLE 4 m.length ++ eb)

/-- Decodes count-many (name, key) entries in order. -/
def entriesFromBytes : Nat → List Nat →
    Except BytesError (List (Name × Key) × List Nat)
  | 0, bs => .ok ([], bs)
  | n + 1, bs =>
    match strFromBytes bs with
    | .error e => .error e
    | .ok (nm, r) =>
      match keyFromBytes r with
      | .error e => .error e
      | .ok (k, r2) =>
        match entriesFromBytes n r2 with
        | .error e => .error e
        | .ok (rest, r3) => .ok ((nm, k) :: rest, r3)

/-- Modelled from the spec: BTreeMap decoding reads the 4-byte count and then
that many entries. -/
def knownKeysFromBytes (bs : List Nat) :
    Except BytesError (List (Name × Key) × List Nat) :=
  match u32FromBytes bs with
  | .error e => .error e
  | .ok (n, r) => entriesFromBytes n r

/-- The Contract stored value of contract-ffi/src/value/contract.rs: opaque
executable bytes, the known_keys name-to-Key map (a BTreeMap, embedded as an
association list strictly sorted by name), and the protocol version it was
compiled against (a u64 in this crate, per the U64_SIZE accounting in
Contract::to_bytes). -/
structure Contract where
  bytes : List Nat
  known_keys : List (Name × Key)
  protocol_version : Nat
deriving DecidableEq

/-- The strict lexicographic name order used by the BTreeMap embedding. -/
def nameLt (a b : Name) : Prop := List.Lex (· < ·) a b

instance (a b : Name) : Decidable (nameLt a b) := by
  unfold nameLt
  infer_instance

/-- Sortedness invariant of a BTreeMap embedded as an association list:
names strictly increase. -/
def MapSorted (m : List (Name × Key)) : Prop :=
  m.Pairwise (fun a b => nameLt a.1 b.1)

instance : DecidableRel (fun (a b : Name × Key) => nameLt a.1 b.1) :=
  fun a b => inferInstanceAs (Decidable (nameLt a.1 b.1))

instance (m : List (Name × Key)) : Decidable (MapSorted m) := by
  unfold MapSorted
  infer_instance

/-- Lookup of a name in the association-list embedding of a BTreeMap. -/
def mapFind (n : Name) : List (Name × Key) → Option Key
  | [] => none
  | (m, k) :: r => if n = m then some k else mapFind n r

/-- Right-biased ordered merge of two sorted maps: embeds BTreeMap::append,
which moves every entry of the second map into the first, overwriting the
value of any name already present. -/
def mergeKK : List (Name × Key) → List (Name × Key) → List (Name × Key)
  | [], ys => ys
  | x :: xs, [] => x :: xs
  | x :: xs, y :: ys =>
    if nameLt x.1 y.1 then x :: mergeKK xs (y :: ys)
    else if nameLt y.1 x.1 then y :: mergeKK (x :: xs) ys
    else y :: mergeKK xs ys
termination_by xs ys => xs.length + ys.length

/-- Embeds Contract::known_keys_append: self.known_keys.append(keys). -/
def Contract.known_keys_append (c : Contract) (keys : List (Name × Key)) :
    Contract :=
  { c with known_keys := mergeKK c.known_keys keys }

/-- Embeds the impl ToBytes for Contract: the guard rejects with
OutOfMemoryError when bytes.len() + UREF_SIZE * known_keys.len() + U64_SIZE
reaches u32::max_value() - U32_SIZE * 2, and otherwise the encoding is the
concatenation of the bytes, known_keys and protocol_version encodings. -/
def contractToBytes (c : Contract) : Except BytesError (List Nat) :=
  if U32_MAX - U32_SIZE * 2 ≤
      c.bytes.length + UREF_SIZE * c.known_keys.length + U64_SIZE then
    .error .OutOfMemoryError
  else
    match vecU8ToBytes c.bytes with
    | .error e => .error e
    | .ok b1 =>
      match knownKeysToBytes c.known_keys with
      | .error e => .error e
      | .ok b2 =>
        match u64ToBytes c.protocol_version with
        | .error e => .error e
        | .ok b3 => .ok (b1 ++ (b2 ++ b3))

/-- Embeds the impl FromBytes for Contract: decode the bytes, the known_keys
and the protocol version in declared order. -/
def contractFromBytes (bs : List Nat) :
    Except BytesError (Contract × List Nat) :=
  match vecU8FromBytes bs with
  | .error e => .error e
  | .ok (v, r1) =>
    match knownKeysFromBytes r1 with
    | .error e => .error e
    | .ok (kk, r2) =>
      match u64FromBytes r2 with
      | .error e => .error e
      | .ok (pv, r3) => .ok (⟨v, kk, pv⟩, r3)

/-- Typing invariant of a Rust Contract value: every stored key is a
well-formed Key and the protocol version is a u64. -/
def Contract.wf (c : Contract) : Bool :=
  c.known_keys.all (fun p => p.2.wf) && decide (c.protocol_version < 2 ^ 64)

deriving instance DecidableEq for Except

/-- The semantic-versioning ProtocolVersion of the types crate, compared by
the commit handler against ProtocolVersion::V1_0_0. -/
structure SemVer where
  major : Nat
  minor : Nat
  patch : Nat
deriving DecidableEq, Repr

/-- Lexicographic strict order of the derived Ord on ProtocolVersion. -/
def svLt (a b : SemVer) : Prop :=
  a.major < b.major ∨
    (a.major = b.major ∧
      (a.minor < b.minor ∨ (a.minor = b.minor ∧ a.patch < b.patch)))

instance (a b : SemVer) : Decidable (svLt a b) := by
  unfold svLt
  infer_instance

/-- The constant DEFAULT_PROTOCOL_VERSION = ProtocolVersion::V1_0_0. -/
def V1_0_0 : SemVer := ⟨1, 0, 0⟩

/-- Embeds the protocol-version normalization at the top of commit: a
supplied version below DEFAULT_PROTOCOL_VERSION is replaced by it. -/
def effectiveProtocolVersion (v : SemVer) : SemVer :=
  if svLt v V1_0_0 then V1_0_0 else v

/-- Embeds TryFrom of the raw pre-state bytes into a Blake2bHash. Modelled
from the spec: hashes are 32 bytes, fixed width; any other length fails. -/
def parseBlake2b (bs : List Nat) : Option (List Nat) :=
  if bs.length = 32 then some bs else none

/-- A transform-parsing failure, as produced by TransformMap::try_from. -/
structure ParsingError where
  message : String
deriving DecidableEq

/-- The commit request of the gRPC surface: a protocol version, the raw
pre-state hash bytes, and the raw effects, still unparsed (R is the raw
protobuf transform-entry type, opaque to the handler). -/
structure CommitRequest (R : Type) where
  protocol_version : SemVer
  prestate_hash : List Nat
  effects : List R

/-- The CommitResult variants of the storage layer, as matched by the commit
handler (K: key type, M: type-mismatch payload, B: bond type, E:
serialization-error type, all opaque to the handler). -/
inductive CommitResult (K M B E : Type)
  | Success (state_root : List Nat) (bonded_validators : List B)
  | RootNotFound
  | KeyNotFound (key : K)
  | TypeMismatch (tm : M)
  | Serialization (error : E)

/-- The protobuf CommitResponse: a oneof over exactly these variants. -/
inductive CommitResponse (K M B : Type)
  | success (poststate_hash : List Nat) (bonded_validators : List B)
  | missing_prestate (hash : List Nat)
  | key_not_found (key : K)
  | type_mismatch (tm : M)
  | failed_transform (message : String)
deriving DecidableEq

/-- The match in commit that maps the apply_effect outcome to the response:
Success sets success with the new root and the bonds, RootNotFound sets
missing_prestate with the pre-state hash, KeyNotFound and TypeMismatch carry
their payloads, and both Serialization and a state error set failed_transform
with the formatted error. -/
def commitResultToResponse {K M B E G : Type} (dbgE : E → String)
    (dbgG : G → String) (pre_state_hash : List Nat)
    (res : Except G (CommitResult K M B E)) : CommitResponse K M B :=
  match res with
  | .ok (.Success root bonds) => .success root bonds
  | .ok .RootNotFound => .missing_prestate pre_state_hash
  | .ok (.KeyNotFound key) => .key_not_found key
  | .ok (.TypeMismatch tm) => .type_mismatch tm
  | .ok (.Serialization error) => .failed_transform (dbgE error)
  | .error error => .failed_transform (dbgG error)

/-- Embeds ExecutionEngineService::commit of engine_server/mod.rs. The
handler normalizes the protocol version, parses the pre-state hash (failure:
failed_transform with the fixed message), parses the transforms via the
supplied TransformMap parser (failure: failed_transform with the parsing
message), then applies the effects through the supplied apply_effect of the
engine and maps its outcome to the response. T is the parsed TransformMap
type, G the engine error type; dbgE and dbgG embed the Debug formatting of
the serialization and engine errors. -/
def commitHandler {R T K M B E G : Type}
    (parseEffects : List R → Except ParsingError T)
    (applyEffect : SemVer → List Nat → T → Except G (CommitResult K M B E))
    (dbgE : E → String) (dbgG : G → String)
    (req : CommitRequest R) : CommitResponse K M B :=
  let protocol_version := effectiveProtocolVersion req.protocol_version
  match parseBlake2b req.prestate_hash with
  | none => .failed_transform "Could not parse pre-state hash"
  | some pre_state_hash =>
    match parseEffects req.effects with
    | .error pe => .failed_transform pe.message
    | .ok transforms =>
      commitResultToResponse dbgE dbgG pre_state_hash
        (applyEffect protocol_version pre_state_hash transforms)

/-- The QueryResult variants of the engine, as matched by the query handler
(V is the StoredValue type, opaque to the handler). -/
inductive QueryResult (V : Type)
  | Success (value : V)
  | ValueNotFound (msg : String)
  | RootNotFound
  | CircularReference (msg : String)

/-- The protobuf QueryResponse: either success bytes or a failure message. -/
inductive QueryResponse
  | success (value : List Nat)
  | failure (message : String)
deriving DecidableEq

/-- Embeds ExecutionEngineService::query of engine_server/mod.rs. The raw
request is parsed (failure: the formatted error as the failure message), the
engine query runs, and on Success the resolved value is serialized with
to_bytes; a serialization error yields a failure response with the prefixed
message, never a success. Q is the raw request type, D the parsed domain
request, V the StoredValue type, G the engine error type; parse returns the
already-formatted error message, dispE embeds the Display of the bytesrepr
error and dbgG the Debug of the engine error. -/
def queryHandler {Q D V G : Type}
    (parse : Q → Except String D)
    (runQuery : D → Except G (QueryResult V))
    (valueToBytes : V → Except BytesError (List Nat))
    (dispE : BytesError → String) (dbgG : G → String)
    (q : Q) : QueryResponse :=
  match parse q with
  | .error msg => .failure msg
  | .ok request =>
    match runQuery request with
    | .ok (.Success value) =>
      match valueToBytes value with
      | .ok serialized_value => .success serialized_value
      | .error e => .failure ("Failed to serialize StoredValue: " ++ dispE e)
    | .ok (.ValueNotFound msg) => .failure msg
    | .ok .RootNotFound => .failure "Root not found"
    | .ok (.CircularReference msg) => .failure msg
    | .error err => .failure (dbgG err)

/-- The gRPC transport error type; the unimplemented handlers construct the
Panic variant. -/
inductive GrpcError
  | Panic (message : String)
deriving DecidableEq

/-- The fixed UNIMPLEMENTED message of engine_server/mod.rs. -/
def UNIMPLEMENTED : String := "unimplemented"

/-- Raw bid-state request; its fields are irrelevant to the handler. -/
structure BidStateRequest

/-- Raw distribute-rewards request; fields irrelevant to the handler. -/
structure DistributeRewardsRequest

/-- Raw slash request; fields irrelevant to the handler. -/
structure SlashRequest

/-- Raw unbond-payout request; fields irrelevant to the handler. -/
structure UnbondPayoutRequest

/-- Response payload types of the four unimplemented operations; the
handlers never construct them. -/
structure BidStateResponse

/-- Response payload of distribute_rewards; never constructed. -/
structure DistributeRewardsResponse

/-- Response payload of slash; never constructed. -/
structure SlashResponse

/-- Response payload of unbond_payout; never constructed. -/
structure UnbondPayoutResponse

/-- Embeds ExecutionEngineService::bid_state: SingleResponse::err(Panic). -/
def bidStateHandler (_req : BidStateRequest) :
    Except GrpcError BidStateResponse :=
  .error (.Panic UNIMPLEMENTED)

/-- Embeds ExecutionEngineService::distribute_rewards. -/
def distributeRewardsHandler (_req : DistributeRewardsRequest) :
    Except GrpcError DistributeRewardsResponse :=
  .error (.Panic UNIMPLEMENTED)

/-- Embeds ExecutionEngineService::slash. -/
def slashHandler (_req : SlashRequest) : Except GrpcError SlashResponse :=
  .error (.Panic UNIMPLEMENTED)

/-- Embeds ExecutionEngineService::unbond_payout. -/
def unbondPayoutHandler (_req : UnbondPayoutRequest) :
    Except GrpcError UnbondPayoutResponse :=
  .error (.Panic UNIMPLEMENTED)

/-- Length of the little-endian emission. -/
lemma toLE_length (k n : Nat) : (toLE k n).length = k := by
  induction k generalizing n with
  | zero => simp [toLE]
  | succ k ih => simp [toLE, ih]

/-- Reading back exactly the bytes that were laid down. -/
lemma readN_of_length (xs rest : List Nat) (n : Nat) (h : xs.length = n) :
    readN n (xs ++ rest) = .ok (xs, rest) := by
  induction xs generalizing n with
  | nil =>
    subst h
    simp [readN]
  | cons x xs ih =>
    subst h
    simp [readN, ih xs.length rfl]

/-- Reading back an exact stream leaves an empty remainder. -/
lemma readN_exact (xs : List Nat) (n : Nat) (h : xs.length = n) :
    readN n xs = .ok (xs, []) := by
  have h2 := readN_of_length xs [] n h
  simpa using h2

/-- Recomposition inverts emission up to the emitted width. -/
lemma fromLE_toLE (k n : Nat) : fromLE (toLE k n) = n % 2 ^ (8 * k) := by
  induction k generalizing n with
  | zero => simp [toLE, fromLE, Nat.mod_one]
  | succ k ih =>
    have h2 : 2 ^ (8 * (k + 1)) = 256 * 2 ^ (8 * k) := by
      rw [Nat.mul_succ, Nat.pow_add]
      ring
    simp only [toLE, fromLE]
    rw [ih, h2, Nat.mod_mul]

/-- The u32 codec round-trips below 2 ^ 32, consuming exactly 4 bytes. -/
lemma u32FromBytes_toLE (n : Nat) (rest : List Nat) (h : n < 2 ^ 32) :
    u32FromBytes (toLE 4 n ++ rest) = .ok (n, rest) := by
  have hf : fromLE (toLE 4 n) = n := by
    rw [fromLE_toLE]
    exact Nat.mod_eq_of_lt (by simpa using h)
  simp [u32FromBytes, readN_of_length (toLE 4 n) rest 4 (toLE_length 4 n), hf]

/-- The byte-sequence codec round-trips whenever encoding succeeded. -/
lemma vecU8FromBytes_rt (v out rest : List Nat)
    (h : vecU8ToBytes v = .ok out) :
    vecU8FromBytes (out ++ rest) = .ok (v, rest) := by
  unfold vecU8ToBytes at h
  split at h
  · simp at h
  · rename_i hg
    have hlt : v.length < 2 ^ 32 := by
      have h32 : (2 : Nat) ^ 32 = 4294967296 := by norm_num
      simp [U32_MAX, U32_SIZE] at hg
      omega
    have hout : out = toLE 4 v.length ++ v := by
      simpa using h.symm
    subst hout
    simp [vecU8FromBytes, List.append_assoc,
      u32FromBytes_toLE v.length (v ++ rest) hlt,
      readN_of_length v rest v.length rfl]

/-- The Key codec round-trips on well-formed keys. -/
lemma keyFromBytes_rt (k : Key) (rest : List Nat) (h : k.wf = true) :
    keyFromBytes (keyToBytes k ++ rest) = .ok (k, rest) := by
  cases k with
  | account a =>
    simp [Key.wf] at h
    simp [keyToBytes, keyFromBytes, readN_of_length a rest 20 h]
  | hash a =>
    simp [Key.wf] at h
    simp [keyToBytes, keyFromBytes, readN_of_length a rest 32 h]
  | uref a r =>
    simp [Key.wf] at h
    obtain ⟨ha, hr⟩ := h
    have hb : r.bits % 256 = r.bits := Nat.mod_eq_of_lt (by omega)
    simp [keyToBytes, keyFromBytes, List.append_assoc,
      readN_of_length a _ 32 ha, accessRightsFromBytes, u8FromBytes,
      AccessRights.from_bits, hb, hr]

/-- The entry-list codec round-trips on well-formed entries whenever encoding
succeeded. -/
lemma entriesFromBytes_rt (m : List (Name × Key)) (eb rest : List Nat)
    (hwf : ∀ p ∈ m, p.2.wf = true) (h : entriesToBytes m = .ok eb) :
    entriesFromBytes m.length (eb ++ rest) = .ok (m, rest) := by
  induction m generalizing eb rest with
  | nil =>
    simp [entriesToBytes] at h
    subst h
    simp [entriesFromBytes]
  | cons p m ih =>
    obtain ⟨nm, k⟩ := p
    unfold entriesToBytes at h
    cases hsb : strToBytes nm with
    | error e => simp [hsb] at h
    | ok nb =>
      cases heb : entriesToBytes m with
      | error e => simp [hsb, heb] at h
      | ok rb =>
        simp [hsb, heb] at h
        subst h
        have hk : Key.wf k = true := hwf (nm, k) (by simp)
        have hwf2 : ∀ p ∈ m, Key.wf p.2 = true := by
          intro p hp
          exact hwf p (by simp [hp])
        have h1 : strFromBytes (nb ++ (keyToBytes k ++ (rb ++ rest))) =
            .ok (nm, keyToBytes k ++ (rb ++ rest)) :=
          vecU8FromBytes_rt nm nb _ hsb
        have h2 : keyFromBytes (keyToBytes k ++ (rb ++ rest)) =
            .ok (k, rb ++ rest) := keyFromBytes_rt k _ hk
        have h3 : entriesFromBytes m.length (rb ++ rest) = .ok (m, rest) :=
          ih rb rest hwf2 heb
        simp [entriesFromBytes, h1, h2, h3]

/-- The Contract codec round-trips on well-formed contracts whenever encoding
succeeded, with an empty remainder. -/
lemma contractFromBytes_rt (c : Contract) (bs : List Nat)
    (hwf : c.wf = true) (h : contractToBytes c = .ok bs) :
    contractFromBytes bs = .ok (c, []) := by
  have hwfk : ∀ p ∈ c.known_keys, Key.wf p.2 = true := by
    intro p hp
    have h1 := (Bool.and_eq_true _ _ |>.mp hwf).1
    rw [List.all_eq_true] at h1
    simpa using h1 p hp
  have hpv : c.protocol_version < 2 ^ 64 := by
    have h2 := (Bool.and_eq_true _ _ |>.mp hwf).2
    simpa using h2
  unfold contractToBytes at h
  split at h
  · simp at h
  · rename_i hg
    have hlen : c.known_keys.length < 2 ^ 32 := by
      have h32 : (2 : Nat) ^ 32 = 4294967296 := by norm_num
      simp [U32_MAX, U32_SIZE, UREF_SIZE, U64_SIZE] at hg
      omega
    cases hv : vecU8ToBytes c.bytes with
    | error e => simp [hv] at h
    | ok b1 =>
      cases hm : knownKeysToBytes c.known_keys with
      | error e => simp [hv, hm] at h
      | ok b2 =>
        simp [hv, hm, u64ToBytes] at h
        subst h
        unfold knownKeysToBytes at hm
        cases he : entriesToBytes c.known_keys with
        | error e => simp [he] at hm
        | ok eb =>
          simp [he] at hm
          subst hm
          have hvec : vecU8FromBytes (b1 ++
              (toLE 4 c.known_keys.length ++ (eb ++ toLE 8 c.protocol_version))) =
              .ok (c.bytes,
                toLE 4 c.known_keys.length ++ (eb ++ toLE 8 c.protocol_version)) :=
            vecU8FromBytes_rt c.bytes b1 _ hv
          have hml : knownKeysFromBytes
              (toLE 4 c.known_keys.length ++ (eb ++ toLE 8 c.protocol_version)) =
              .ok (c.known_keys, toLE 8 c.protocol_version) := by
            have hm2 : u32FromBytes (toLE 4 c.known_keys.length ++
                (eb ++ toLE 8 c.protocol_version)) =
                .ok (c.known_keys.length, eb ++ toLE 8 c.protocol_version) :=
              u32FromBytes_toLE _ _ hlen
            have hm3 : entriesFromBytes c.known_keys.length
                (eb ++ toLE 8 c.protocol_version) =
                .ok (c.known_keys, toLE 8 c.protocol_version) :=
              entriesFromBytes_rt _ _ _ hwfk he
            simp [knownKeysFromBytes, hm2, hm3]
          have hu : u64FromBytes (toLE 8 c.protocol_version) =
              .ok (c.protocol_version, []) := by
            have hf : fromLE (toLE 8 c.protocol_version) =
                c.protocol_version := by
              rw [fromLE_toLE]
              exact Nat.mod_eq_of_lt (by simpa using hpv)
            simp [u64FromBytes,
              readN_exact (toLE 8 c.protocol_version) 8 (toLE_length 8 _), hf]
          simp [contractFromBytes, hvec, hml, hu]

/-- Irreflexivity of the name order. -/
lemma nameLt_irrefl (a : Name) : ¬ nameLt a a := fun h =>
  (IsAsymm.asymm (r := List.Lex (· < ·)) a a h) h

/-- Transitivity of the name order. -/
lemma nameLt_trans {a b c : Name} (h1 : nameLt a b) (h2 : nameLt b c) :
    nameLt a c :=
  IsTrans.trans (r := List.Lex (· < ·)) a b c h1 h2

/-- Totality: two incomparable names are equal. -/
lemma nameLt_eq_of_not {a b : Name} (h1 : ¬ nameLt a b) (h2 : ¬ nameLt b a) :
    a = b := by
  have h3 : List.Lex (· < ·) a b ∨ a = b ∨ List.Lex (· < ·) b a :=
    trichotomous a b
  rcases h3 with h | h | h
  · exact absurd h h1
  · exact h
  · exact absurd h h2

/-- A name strictly below every key of a map is absent from it. -/
lemma mapFind_none_of_lt (n : Name) (l : List (Name × Key))
    (h : ∀ p ∈ l, nameLt n p.1) : mapFind n l = none := by
  induction l with
  | nil => rfl
  | cons p l ih =>
    have hne : n ≠ p.1 := by
      intro he
      exact nameLt_irrefl n (he ▸ h p (by simp))
    simp only [mapFind, if_neg hne]
    exact ih (fun q hq => h q (by simp [hq]))

/-- Lookup in the right-biased ordered merge of two sorted maps: an entry of
the second map wins, and an entry only in the first map survives. -/
lemma mapFind_mergeKK (xs ys : List (Name × Key)) (n : Name)
    (hx : MapSorted xs) (hy : MapSorted ys) :
    mapFind n (mergeKK xs ys) = (mapFind n ys).or (mapFind n xs) := by
  induction xs, ys using mergeKK.induct with
  | case1 ys => simp [mergeKK, mapFind, Option.or_none]
  | case2 x xs => simp [mergeKK, mapFind, Option.none_or]
  | case3 x xs y ys hlt ih =>
    have hx2 : MapSorted xs := (List.pairwise_cons.mp hx).2
    have hyall : ∀ p ∈ (y :: ys), nameLt x.1 p.1 := by
      intro p hp
      rcases List.mem_cons.mp hp with h | h
      · exact h ▸ hlt
      · exact nameLt_trans hlt ((List.pairwise_cons.mp hy).1 p h)
    by_cases hn : n = x.1
    · have hfy : mapFind n (y :: ys) = none := by
        subst hn
        exact mapFind_none_of_lt _ _ hyall
      simp only [mapFind] at hfy
      simp [mergeKK, if_pos hlt, mapFind, if_pos hn, hfy, Option.none_or]
    · simp only [mergeKK, if_pos hlt, mapFind, if_neg hn]
      rw [ih hx2 hy]
      simp [mapFind, if_neg hn]
  | case4 x xs y ys hlt hgt ih =>
    have hy2 : MapSorted ys := (List.pairwise_cons.mp hy).2
    by_cases hn : n = y.1
    · simp [mergeKK, if_neg hlt, if_pos hgt, mapFind, if_pos hn]
    · simp only [mergeKK, if_neg hlt, if_pos hgt, mapFind, if_neg hn]
      rw [ih hx hy2]
      simp [mapFind, if_neg hn]
  | case5 x xs y ys hlt hgt ih =>
    have hx2 : MapSorted xs := (List.pairwise_cons.mp hx).2
    have hy2 : MapSorted ys := (List.pairwise_cons.mp hy).2
    have heq : x.1 = y.1 := nameLt_eq_of_not hlt hgt
    by_cases hn : n = y.1
    · simp [mergeKK, if_neg hlt, if_neg hgt, mapFind, if_pos hn]
    · have hnx : n ≠ x.1 := heq ▸ hn
      simp only [mergeKK, if_neg hlt, if_neg hgt, mapFind, if_neg hn]
      rw [ih hx2 hy2]
      simp [mapFind, if_neg hnx]

/-- Total serialized size of the known_keys entries: per entry, the 4-byte
name-length field, the name bytes, and the key encoding. -/
def entriesSize (m : List (Name × Key)) : Nat :=
  m.foldr (fun p acc => U32_SIZE + p.1.length + (keyToBytes p.2).length + acc) 0

/-- Entry encoding succeeds when every name is below the byte-sequence bound,
and its size is entriesSize. -/
lemma entriesToBytes_ok (m : List (Name × Key))
    (h : ∀ p ∈ m, p.1.length < U32_MAX - U32_SIZE) :
    ∃ eb, entriesToBytes m = .ok eb ∧ eb.length = entriesSize m := by
  induction m with
  | nil => exact ⟨[], rfl, rfl⟩
  | cons p m ih =>
    obtain ⟨eb, heb, hlen⟩ := ih (fun q hq => h q (by simp [hq]))
    have hp : p.1.length < U32_MAX - U32_SIZE := h p (by simp)
    have hs : strToBytes p.1 = .ok (toLE 4 p.1.length ++ p.1) := by
      unfold strToBytes vecU8ToBytes
      rw [if_neg (Nat.not_le_of_lt hp)]
    refine ⟨(toLE 4 p.1.length ++ p.1) ++ (keyToBytes p.2 ++ eb), ?_, ?_⟩
    · simp [entriesToBytes, hs, heb]
    · simp [entriesSize, toLE_length, hlen, List.length_append, U32_SIZE]
      omega

/-- Size of a successful Contract encoding: the two 4-byte length fields, the
executable bytes, the entry bytes and the 8-byte protocol version. -/
lemma contractToBytes_length (c : Contract)
    (hg : c.bytes.length + UREF_SIZE * c.known_keys.length + U64_SIZE <
      U32_MAX - U32_SIZE * 2)
    (hn : ∀ p ∈ c.known_keys, p.1.length < U32_MAX - U32_SIZE) :
    Except.map List.length (contractToBytes c) =
      .ok (U32_SIZE + c.bytes.length +
        (U32_SIZE + entriesSize c.known_keys) + U64_SIZE) := by
  obtain ⟨eb, heb, hlen⟩ := entriesToBytes_ok c.known_keys hn
  have hb : ¬ (U32_MAX - U32_SIZE ≤ c.bytes.length) := by
    simp only [U32_MAX, U32_SIZE, U64_SIZE, UREF_SIZE] at hg ⊢
    omega
  have hv : vecU8ToBytes c.bytes = .ok (toLE 4 c.bytes.length ++ c.bytes) := by
    unfold vecU8ToBytes
    rw [if_neg hb]
  have hm : knownKeysToBytes c.known_keys =
      .ok (toLE 4 c.known_keys.length ++ eb) := by
    unfold knownKeysToBytes
    rw [heb]
  unfold contractToBytes
  rw [if_neg (Nat.not_le_of_lt hg)]
  simp only [hv, hm, u64ToBytes, Except.map]
  congr 1
  simp [List.length_append, toLE_length, hlen, U32_SIZE, U64_SIZE]
  omega

/-- A contract with no executable bytes and a single known_keys entry whose
name is 2 ^ 32 - 62 bytes long: the to_bytes guard counts the entry at
UREF_SIZE and never sees the name bytes, so it passes, yet the produced
encoding is exactly u32::MAX - 8 bytes long. -/
def cexC1 : Contract :=
  ⟨[], [(List.replicate (2 ^ 32 - 62) 97, Key.hash (List.replicate 32 0))], 1⟩

/-- Concrete contract used to exercise the codec round-trip. -/
def cwC2 : Contract := ⟨[9], [([97], Key.hash (List.replicate 32 0))], 3⟩

/-- Length of the long entry name of cexC1. -/
lemma cexC1_hrep :
    (List.replicate (2 ^ 32 - 62) (97 : Nat)).length = 2 ^ 32 - 62 :=
  List.length_replicate _ _

lemma cexC1_hg : cexC1.bytes.length + UREF_SIZE * cexC1.known_keys.length +
    U64_SIZE < U32_MAX - U32_SIZE * 2 := by
  have hrep := cexC1_hrep
  have hg : cexC1.bytes.length + UREF_SIZE * cexC1.known_keys.length +
      U64_SIZE < U32_MAX - U32_SIZE * 2 := by
    rw [show cexC1.bytes = ([] : List Nat) from rfl,
      show cexC1.known_keys =
        [(List.replicate (2 ^ 32 - 62) 97, Key.hash (List.replicate 32 0))]
      from rfl, List.length_nil]
    rw [show [(List.replicate (2 ^ 32 - 62) 97,
        Key.hash (List.replicate 32 0))].length = 1 from
      List.length_singleton _]
    norm_num [UREF_SIZE, U64_SIZE, U32_MAX, U32_SIZE]
  exact hg

lemma cexC1_hn : ∀ p ∈ cexC1.known_keys, p.1.length < U32_MAX - U32_SIZE := by
  have hrep := cexC1_hrep
  have hn : ∀ p ∈ cexC1.known_keys, p.1.length < U32_MAX - U32_SIZE := by
    intro p hp
    rw [show cexC1.known_keys =
        [(List.replicate (2 ^ 32 - 62) 97, Key.hash (List.replicate 32 0))]
      from rfl, List.mem_singleton] at hp
    subst hp
    rw [show ((List.replicate (2 ^ 32 - 62) 97,
        Key.hash (List.replicate 32 0)) : Name × Key).1 =
      List.replicate (2 ^ 32 - 62) 97 from rfl, hrep]
    norm_num [U32_MAX, U32_SIZE]
  exact hn

lemma entriesSize_cons (p : Name × Key) (m : List (Name × Key)) :
    entriesSize (p :: m) =
      U32_SIZE + p.1.length + (keyToBytes p.2).length + entriesSize m := rfl

lemma entriesSize_nil : entriesSize [] = 0 := rfl

lemma cexC1_hes : entriesSize cexC1.known_keys =
    U32_SIZE + (2 ^ 32 - 62) + 33 := by
  have hk : (keyToBytes (Key.hash (List.replicate 32 0))).length = 33 := by
    show (1 :: List.replicate 32 (0 : Nat)).length = 33
    rw [List.length_cons, List.length_replicate]
  rw [show cexC1.known_keys =
      [(List.replicate (2 ^ 32 - 62) 97, Key.hash (List.replicate 32 0))]
    from rfl]
  rw [entriesSize_cons, entriesSize_nil]
  rw [show ((List.replicate (2 ^ 32 - 62) 97,
      Key.hash (List.replicate 32 0)) : Name × Key).1 =
    List.replicate (2 ^ 32 - 62) 97 from rfl]
  rw [show ((List.replicate (2 ^ 32 - 62) 97,
      Key.hash (List.replicate 32 0)) : Name × Key).2 =
    Key.hash (List.replicate 32 0) from rfl]
  rw [cexC1_hrep, hk, Nat.add_zero]

lemma cexC1_htotal : U32_SIZE + cexC1.bytes.length +
    (U32_SIZE + entriesSize cexC1.known_keys) + U64_SIZE =
    U32_MAX - U32_SIZE * 2 := by
  rw [show cexC1.bytes.length = 0 from rfl, cexC1_hes]
  norm_num [U32_SIZE, U64_SIZE, U32_MAX]

/-- C1: the claim that Contract::to_bytes fails with OutOfMemoryError
whenever the total serialized byte length reaches u32::MAX minus two 4-byte
length fields is FALSE: on cexC1 the guard passes (it estimates the single
entry at UREF_SIZE = 34 bytes and ignores the 2 ^ 32 - 62 name bytes), and
encoding succeeds with an output of exactly U32_MAX - U32_SIZE * 2 bytes,
a total that has reached the bound. -/
theorem contract_to_bytes_bound_cex :
    Except.map List.length (contractToBytes cexC1) =
      .ok (U32_MAX - U32_SIZE * 2) := by
  rw [contractToBytes_length cexC1 cexC1_hg cexC1_hn, cexC1_htotal]

/-- C1 (amended): Contract::to_bytes fails with OutOfMemoryError exactly
when its guard quantity bytes.len + UREF_SIZE * known_keys.len + U64_SIZE
reaches u32::MAX - 2 * U32_SIZE; below the guard (and with every entry name
below the byte-sequence bound) it returns the complete encoding, whose
length counts the actual name bytes the guard ignored. -/
theorem contract_to_bytes_guard (c : Contract) :
    (U32_MAX - U32_SIZE * 2 ≤
        c.bytes.length + UREF_SIZE * c.known_keys.length + U64_SIZE →
      contractToBytes c = .error .OutOfMemoryError) ∧
    (c.bytes.length + UREF_SIZE * c.known_keys.length + U64_SIZE <
        U32_MAX - U32_SIZE * 2 →
      (∀ p ∈ c.known_keys, p.1.length < U32_MAX - U32_SIZE) →
      Except.map List.length (contractToBytes c) =
        .ok (U32_SIZE + c.bytes.length +
          (U32_SIZE + entriesSize c.known_keys) + U64_SIZE)) := by
  constructor
  · intro h
    unfold contractToBytes
    rw [if_pos h]
  · intro h1 h2
    exact contractToBytes_length c h1 h2

/-- Witness for C1 (amended): a contract with 2 ^ 32 executable bytes trips
the guard, and a one-byte contract with no keys encodes to 17 bytes. -/
theorem contract_to_bytes_guard_witness :
    contractToBytes ⟨List.replicate (2 ^ 32) 0, [], 0⟩ =
      .error .OutOfMemoryError ∧
    Except.map List.length (contractToBytes ⟨[5], [], 7⟩) = .ok 17 := by
  constructor
  · refine (contract_to_bytes_guard ⟨List.replicate (2 ^ 32) 0, [], 0⟩).1 ?_
    rw [show (Contract.mk (List.replicate (2 ^ 32) 0) [] 0).bytes =
        List.replicate (2 ^ 32) 0 from rfl,
      show (Contract.mk (List.replicate (2 ^ 32) 0) [] 0).known_keys = []
        from rfl,
      List.length_replicate, List.length_nil]
    norm_num [U32_MAX, U32_SIZE, UREF_SIZE, U64_SIZE]
  · have h := (contract_to_bytes_guard ⟨[5], [], 7⟩).2 (by decide)
      (by intro p hp; cases hp)
    rw [h]
    rfl

/-- C2: the codec round-trips: for every AccessRights value (bits inside the
bitflags mask) decoding the one-byte encoding returns the value with empty
remainder, and for every well-typed Contract whose encoding succeeds,
decoding the encoding returns the contract with empty remainder. -/
theorem codec_round_trip (r : AccessRights) (hr : r.bits < 8) (c : Contract)
    (hc : c.wf = true) :
    (accessRightsToBytes r = .ok [r.bits] ∧
      accessRightsFromBytes [r.bits] = .ok (r, [])) ∧
    (∀ bs, contractToBytes c = .ok bs → contractFromBytes bs = .ok (c, [])) := by
  refine ⟨⟨?_, ?_⟩, fun bs h => contractFromBytes_rt c bs hc h⟩
  · unfold accessRightsToBytes u8ToBytes
    rw [Nat.mod_eq_of_lt (by omega)]
  · simp [accessRightsFromBytes, u8FromBytes, AccessRights.from_bits, hr]

/-- Witness for C2: round-trip evaluated on AccessRights READ_ADD (5) and on
the concrete contract cwC2. -/
theorem codec_round_trip_witness :
    accessRightsFromBytes [5] = .ok (⟨5⟩, []) ∧
    contractFromBytes ([1, 0, 0, 0, 9] ++ ([1, 0, 0, 0] ++ ([1, 0, 0, 0, 97] ++
      (1 :: List.replicate 32 0) ++ [])) ++ toLE 8 3) = .ok (cwC2, []) := by
  have h := codec_round_trip ⟨5⟩ (by decide) cwC2 (by decide)
  exact ⟨h.1.2, h.2 _ (by decide)⟩

/-- C3: AccessRights serializes to exactly one byte, and a byte decodes
successfully iff it has no bits outside READ, WRITE, ADD -- that is, iff it
is one of the eight values 0..7; any other byte fails with FormattingError
rather than being masked. -/
theorem access_rights_codec_domain :
    (∀ r : AccessRights, accessRightsToBytes r = .ok [r.bits % 256]) ∧
    (∀ b : Nat, b < 256 →
      ((accessRightsFromBytes [b] = .ok (⟨b⟩, [])) ↔ b < 8) ∧
      (8 ≤ b → accessRightsFromBytes [b] = .error .FormattingError)) := by
  refine ⟨fun r => rfl, fun b _ => ⟨⟨fun h => ?_, fun h => ?_⟩, fun h => ?_⟩⟩
  · by_contra hb
    simp [accessRightsFromBytes, u8FromBytes, AccessRights.from_bits, hb] at h
  · simp [accessRightsFromBytes, u8FromBytes, AccessRights.from_bits, h]
  · simp [accessRightsFromBytes, u8FromBytes, AccessRights.from_bits,
      Nat.not_lt_of_le h]

/-- Witness for C3: READ_WRITE (3) encodes as the single byte 3, byte 5
decodes, and byte 9 (an unknown bit set) is a FormattingError. -/
theorem access_rights_codec_domain_witness :
    accessRightsToBytes ⟨3⟩ = .ok [3] ∧
    accessRightsFromBytes [5] = .ok (⟨5⟩, []) ∧
    accessRightsFromBytes [9] = .error .FormattingError := by
  refine ⟨access_rights_codec_domain.1 ⟨3⟩, ?_, ?_⟩
  · exact (access_rights_codec_domain.2 5 (by decide)).1.mpr (by decide)
  · exact (access_rights_codec_domain.2 9 (by decide)).2 (by decide)

/-- Masking with a single bit yields the bit exactly when that bit is set. -/
lemma and_two_pow_eq_iff (n i : Nat) :
    (n &&& 2 ^ i) = 2 ^ i ↔ n.testBit i = true := by
  have h := Nat.and_two_pow n i
  cases hb : n.testBit i
  · rw [hb] at h
    simp only [Bool.toNat_false, Nat.zero_mul, zero_mul] at h
    rw [h]
    refine ⟨fun he =>
      absurd he.symm (Nat.pos_iff_ne_zero.mp (Nat.pow_pos (by norm_num))),
      fun he => by cases he⟩
  · rw [hb] at h
    simp only [Bool.toNat_true, Nat.one_mul, one_mul] at h
    simp [h]

/-- C4: is_readable, is_writeable, is_addable test exactly the READ, WRITE
and ADD bits of the bitset, and the WRITE-only value is not readable. -/
theorem access_rights_membership (r : AccessRights) :
    (r.is_readable = true ↔ r.bits.testBit 0 = true) ∧
    (r.is_writeable = true ↔ r.bits.testBit 1 = true) ∧
    (r.is_addable = true ↔ r.bits.testBit 2 = true) ∧
    AccessRights.WRITE.is_readable = false := by
  refine ⟨?_, ?_, ?_, by decide⟩
  · have h := and_two_pow_eq_iff r.bits 0
    rw [pow_zero] at h
    simp only [AccessRights.is_readable, AccessRights.READ, beq_iff_eq]
    exact h
  · have h := and_two_pow_eq_iff r.bits 1
    rw [pow_one] at h
    simpa [AccessRights.is_writeable, AccessRights.WRITE] using h
  · have h := and_two_pow_eq_iff r.bits 2
    rw [show (2 : Nat) ^ 2 = 4 from by norm_num] at h
    simpa [AccessRights.is_addable, AccessRights.ADD] using h

/-- Witness for C4: evaluated on READ_ADD (5): readable, not writeable,
addable. -/
theorem access_rights_membership_witness :
    AccessRights.is_readable ⟨5⟩ = true ∧
    AccessRights.is_writeable ⟨5⟩ = false ∧
    AccessRights.is_addable ⟨5⟩ = true := by
  have h := access_rights_membership ⟨5⟩
  exact ⟨h.1.mpr (by decide), by
    have h2 := h.2.1
    simp only [show Nat.testBit 5 1 = false from by decide] at h2
    simpa using h2, h.2.2.1.mpr (by decide)⟩

/-- C5: known_keys_append merges the incoming map into the contract map
right-biased: a name present in the incoming map takes its incoming key
(overwriting on collision), a name present only in the prior map keeps its
prior key, and the executable bytes and protocol version are unchanged. -/
theorem known_keys_append_spec (c : Contract) (m : List (Name × Key))
    (hc : MapSorted c.known_keys) (hm : MapSorted m) (n : Name) :
    mapFind n (c.known_keys_append m).known_keys =
      (mapFind n m).or (mapFind n c.known_keys) ∧
    (c.known_keys_append m).bytes = c.bytes ∧
    (c.known_keys_append m).protocol_version = c.protocol_version := by
  refine ⟨?_, rfl, rfl⟩
  exact mapFind_mergeKK c.known_keys m n hc hm

/-- Witness for C5: on a collision of name [1] the incoming key (a Hash key)
overwrites the prior Account key, while name [2] keeps its prior key. -/
theorem known_keys_append_spec_witness :
    mapFind [1] ((Contract.mk [7]
        [([1], Key.account (List.replicate 20 0)),
         ([2], Key.account (List.replicate 20 3))] 9).known_keys_append
      [([1], Key.hash (List.replicate 32 1))]).known_keys =
      some (Key.hash (List.replicate 32 1)) ∧
    mapFind [2] ((Contract.mk [7]
        [([1], Key.account (List.replicate 20 0)),
         ([2], Key.account (List.replicate 20 3))] 9).known_keys_append
      [([1], Key.hash (List.replicate 32 1))]).known_keys =
      some (Key.account (List.replicate 20 3)) := by
  constructor
  · exact (known_keys_append_spec _ _ (by decide) (by decide) [1]).1.trans
      (by decide)
  · exact (known_keys_append_spec _ _ (by decide) (by decide) [2]).1.trans
      (by decide)

/-- C6: with a well-formed commit request (pre-state hash parses, transforms
parse), the commit handler returns exactly the response variant matching the
engine outcome: Success carries the new root and the bonded validators,
RootNotFound carries the pre-state hash as missing_prestate, KeyNotFound and
TypeMismatch carry their payloads, and a serialization failure (or an engine
error) is a failed_transform. -/
theorem commit_result_mapping {R T K M B E G : Type}
    (parseEffects : List R → Except ParsingError T)
    (applyEffect : SemVer → List Nat → T → Except G (CommitResult K M B E))
    (dbgE : E → String) (dbgG : G → String) (req : CommitRequest R)
    (h : List Nat) (t : T)
    (hh : parseBlake2b req.prestate_hash = some h)
    (ht : parseEffects req.effects = .ok t) :
    (∀ root bonds,
      applyEffect (effectiveProtocolVersion req.protocol_version) h t =
          .ok (.Success root bonds) →
        commitHandler parseEffects applyEffect dbgE dbgG req =
          .success root bonds) ∧
    (applyEffect (effectiveProtocolVersion req.protocol_version) h t =
        .ok .RootNotFound →
      commitHandler parseEffects applyEffect dbgE dbgG req =
        .missing_prestate h) ∧
    (∀ key,
      applyEffect (effectiveProtocolVersion req.protocol_version) h t =
          .ok (.KeyNotFound key) →
        commitHandler parseEffects applyEffect dbgE dbgG req =
          .key_not_found key) ∧
    (∀ tm,
      applyEffect (effectiveProtocolVersion req.protocol_version) h t =
          .ok (.TypeMismatch tm) →
        commitHandler parseEffects applyEffect dbgE dbgG req =
          .type_mismatch tm) ∧
    (∀ err,
      applyEffect (effectiveProtocolVersion req.protocol_version) h t =
          .ok (.Serialization err) →
        commitHandler parseEffects applyEffect dbgE dbgG req =
          .failed_transform (dbgE err)) ∧
    (∀ g,
      applyEffect (effectiveProtocolVersion req.protocol_version) h t =
          .error g →
        commitHandler parseEffects applyEffect dbgE dbgG req =
          .failed_transform (dbgG g)) := by
  refine ⟨fun root bonds ha => ?_, fun ha => ?_, fun key ha => ?_,
    fun tm ha => ?_, fun err ha => ?_, fun g ha => ?_⟩ <;>
    simp [commitHandler, hh, ht, ha, commitResultToResponse]

/-- Witness for C6: concrete request and engine outcome exercising the
Success branch. -/
theorem commit_result_mapping_witness :
    commitHandler (R := Nat) (T := Nat) (K := Nat) (M := Nat) (B := Nat)
      (E := Nat) (G := Nat) (fun _ => .ok 0)
      (fun _ _ _ => .ok (.Success [1] [2])) (fun _ => "e") (fun _ => "g")
      ⟨⟨1, 0, 0⟩, List.replicate 32 0, []⟩ = .success [1] [2] := by
  exact (commit_result_mapping (fun _ => .ok 0)
    (fun _ _ _ => .ok (.Success [1] [2])) (fun _ => "e") (fun _ => "g")
    ⟨⟨1, 0, 0⟩, List.replicate 32 0, []⟩ (List.replicate 32 0) 0
    (by decide) rfl).1 [1] [2] rfl

/-- C7: a commit request whose pre-state hash does not parse as a 32-byte
hash, or whose transform set does not parse, yields a failed_transform
response, and the response does not depend on the engine apply_effect
function at all (the engine, and hence the store, is never invoked). -/
theorem commit_rejects_unparsable {R T K M B E G : Type}
    (parseEffects : List R → Except ParsingError T)
    (applyEffect applyEffect2 :
      SemVer → List Nat → T → Except G (CommitResult K M B E))
    (dbgE : E → String) (dbgG : G → String) (req : CommitRequest R) :
    (parseBlake2b req.prestate_hash = none →
      commitHandler parseEffects applyEffect dbgE dbgG req =
        .failed_transform "Could not parse pre-state hash" ∧
      commitHandler parseEffects applyEffect dbgE dbgG req =
        commitHandler parseEffects applyEffect2 dbgE dbgG req) ∧
    (∀ msg h, parseBlake2b req.prestate_hash = some h →
      parseEffects req.effects = .error ⟨msg⟩ →
      commitHandler parseEffects applyEffect dbgE dbgG req =
        .failed_transform msg ∧
      commitHandler parseEffects applyEffect dbgE dbgG req =
        commitHandler parseEffects applyEffect2 dbgE dbgG req) := by
  constructor
  · intro hh
    constructor <;> simp [commitHandler, hh]
  · intro msg h hh ht
    constructor <;> simp [commitHandler, hh, ht]

/-- Witness for C7: a 3-byte pre-state hash is rejected identically under
two engine functions that would answer differently. -/
theorem commit_rejects_unparsable_witness :
    commitHandler (R := Nat) (T := Nat) (K := Nat) (M := Nat) (B := Nat)
      (E := Nat) (G := Nat) (fun _ => .ok 0)
      (fun _ _ _ => .ok (.Success [1] [])) (fun _ => "e") (fun _ => "g")
      ⟨⟨1, 0, 0⟩, [1, 2, 3], []⟩ =
      .failed_transform "Could not parse pre-state hash" ∧
    commitHandler (R := Nat) (T := Nat) (K := Nat) (M := Nat) (B := Nat)
      (E := Nat) (G := Nat) (fun _ => .ok 0)
      (fun _ _ _ => .ok (.Success [1] [])) (fun _ => "e") (fun _ => "g")
      ⟨⟨1, 0, 0⟩, [1, 2, 3], []⟩ =
      commitHandler (R := Nat) (T := Nat) (K := Nat) (M := Nat) (B := Nat)
        (E := Nat) (G := Nat) (fun _ => .ok 0)
        (fun _ _ _ => .ok .RootNotFound)
        (fun _ => "e") (fun _ => "g") ⟨⟨1, 0, 0⟩, [1, 2, 3], []⟩ :=
  (commit_rejects_unparsable (fun _ => .ok 0)
    (fun _ _ _ => .ok (.Success [1] [])) (fun _ _ _ => .ok .RootNotFound)
    (fun _ => "e") (fun _ => "g") ⟨⟨1, 0, 0⟩, [1, 2, 3], []⟩).1 rfl

/-- C8: the four unimplemented boundary operations answer every request with
the explicit unimplemented gRPC error and never with a success response. -/
theorem unimplemented_operations (r1 : BidStateRequest)
    (r2 : DistributeRewardsRequest) (r3 : SlashRequest)
    (r4 : UnbondPayoutRequest) :
    bidStateHandler r1 = .error (.Panic UNIMPLEMENTED) ∧
    (bidStateHandler r1).isOk = false ∧
    distributeRewardsHandler r2 = .error (.Panic UNIMPLEMENTED) ∧
    (distributeRewardsHandler r2).isOk = false ∧
    slashHandler r3 = .error (.Panic UNIMPLEMENTED) ∧
    (slashHandler r3).isOk = false ∧
    unbondPayoutHandler r4 = .error (.Panic UNIMPLEMENTED) ∧
    (unbondPayoutHandler r4).isOk = false :=
  ⟨rfl, rfl, rfl, rfl, rfl, rfl, rfl, rfl⟩

/-- Witness for C8: evaluated at the trivial requests. -/
theorem unimplemented_operations_witness :
    bidStateHandler ⟨⟩ = .error (.Panic "unimplemented") ∧
    slashHandler ⟨⟩ = .error (.Panic "unimplemented") :=
  ⟨(unimplemented_operations ⟨⟩ ⟨⟩ ⟨⟩ ⟨⟩).1,
    (unimplemented_operations ⟨⟩ ⟨⟩ ⟨⟩ ⟨⟩).2.2.2.2.1⟩

/-- C9: a supplied protocol version strictly below 1.0.0 is silently
replaced by 1.0.0 while a version at or above 1.0.0 is kept, and the commit
handler proceeds, invoking the engine with the normalized version and
mapping its outcome to the response (it does not reject the request). -/
theorem commit_protocol_version_floor {R T K M B E G : Type}
    (parseEffects : List R → Except ParsingError T)
    (applyEffect : SemVer → List Nat → T → Except G (CommitResult K M B E))
    (dbgE : E → String) (dbgG : G → String) (req : CommitRequest R)
    (h : List Nat) (t : T)
    (hh : parseBlake2b req.prestate_hash = some h)
    (ht : parseEffects req.effects = .ok t) :
    (svLt req.protocol_version V1_0_0 →
      effectiveProtocolVersion req.protocol_version = V1_0_0) ∧
    (¬ svLt req.protocol_version V1_0_0 →
      effectiveProtocolVersion req.protocol_version =
        req.protocol_version) ∧
    commitHandler parseEffects applyEffect dbgE dbgG req =
      commitResultToResponse dbgE dbgG h
        (applyEffect (effectiveProtocolVersion req.protocol_version) h t) := by
  refine ⟨fun hv => ?_, fun hv => ?_, ?_⟩
  · unfold effectiveProtocolVersion
    rw [if_pos hv]
  · unfold effectiveProtocolVersion
    rw [if_neg hv]
  · simp [commitHandler, hh, ht]

/-- Witness for C9: version 0.9.9 is below 1.0.0, and the handler invokes
the engine with 1.0.0, observed through an engine that echoes the version it
receives inside the state root. -/
theorem commit_protocol_version_floor_witness :
    effectiveProtocolVersion ⟨0, 9, 9⟩ = V1_0_0 ∧
    commitHandler (R := Nat) (T := Nat) (K := Nat) (M := Nat) (B := Nat)
      (E := Nat) (G := Nat) (fun _ => .ok 0)
      (fun v _ _ => .ok (.Success [v.major, v.minor, v.patch] []))
      (fun _ => "e") (fun _ => "g")
      ⟨⟨0, 9, 9⟩, List.replicate 32 0, []⟩ = .success [1, 0, 0] [] := by
  have hw := commit_protocol_version_floor (R := Nat) (K := Nat) (M := Nat)
    (B := Nat) (E := Nat) (G := Nat) (fun _ => .ok 0)
    (fun v _ _ => .ok (.Success [v.major, v.minor, v.patch] []))
    (fun _ => "e") (fun _ => "g") ⟨⟨0, 9, 9⟩, List.replicate 32 0, []⟩
    (List.replicate 32 0) 0 (by decide) rfl
  refine ⟨hw.1 (by decide), ?_⟩
  rw [hw.2.2, hw.1 (by decide)]
  rfl

/-- C10: when the query resolves to a StoredValue whose serialization fails,
the query handler returns a failure response carrying the
serialization-failure message; a success response arises only from a query
whose resolved value serialized successfully. -/
theorem query_serialization_gate {Q D V G : Type}
    (parse : Q → Except String D)
    (runQuery : D → Except G (QueryResult V))
    (valueToBytes : V → Except BytesError (List Nat))
    (dispE : BytesError → String) (dbgG : G → String) (q : Q) :
    (∀ d v e, parse q = .ok d → runQuery d = .ok (.Success v) →
      valueToBytes v = .error e →
      queryHandler parse runQuery valueToBytes dispE dbgG q =
        .failure ("Failed to serialize StoredValue: " ++ dispE e)) ∧
    (∀ bs, queryHandler parse runQuery valueToBytes dispE dbgG q =
        .success bs →
      ∃ d v, parse q = .ok d ∧ runQuery d = .ok (.Success v) ∧
        valueToBytes v = .ok bs) := by
  constructor
  · intro d v e hp hr hv
    simp [queryHandler, hp, hr, hv]
  · intro bs hres
    unfold queryHandler at hres
    split at hres
    · exact QueryResponse.noConfusion hres
    · rename_i d hp
      split at hres
      · rename_i v hr
        split at hres
        · rename_i sv hv
          injection hres with hbs
          exact ⟨d, v, hp, hr, by rw [hv, hbs]⟩
        · exact QueryResponse.noConfusion hres
      · exact QueryResponse.noConfusion hres
      · exact QueryResponse.noConfusion hres
      · exact QueryResponse.noConfusion hres
      · exact QueryResponse.noConfusion hres

/-- Witness for C10: a query resolving to a value whose serialization fails
with OutOfMemoryError produces the prefixed failure message. -/
theorem query_serialization_gate_witness :
    queryHandler (Q := Nat) (D := Nat) (V := Nat) (G := Nat)
      (fun _ => .ok 0) (fun _ => .ok (.Success 0))
      (fun _ => .error .OutOfMemoryError) (fun _ => "OutOfMemoryError")
      (fun _ => "g") 0 =
      .failure "Failed to serialize StoredValue: OutOfMemoryError" := by
  exact (query_serialization_gate (fun _ => .ok 0)
    (fun _ => .ok (.Success 0)) (fun _ => .error .OutOfMemoryError)
    (fun _ => "OutOfMemoryError") (fun _ => "g") 0).1 0 0
    .OutOfMemoryError rfl rfl rfl
